import Mathlib

/-!
Verification development for the `tally` persistence core.

The Rust source under `src/app/src-tauri/src/` is shallowly embedded here:

* `models/account.rs` — the `AccountType` and `AccountCategory` enums with
  their string codecs and the `category` derivation, plus the `Account`,
  `CreateAccountInput`, `UpdateAccountInput` and `AccountWithBalance` records.
* `models/balance.rs` — the `BalanceEntry` record and its input shapes.
* `db.rs` — the three-step migration list, embedded as a small SQL AST
  (`TableDef` / `IndexDef` / `SqlStmt`) that transcribes the literal SQL,
  together with the store semantics of `CREATE ... IF NOT EXISTS`.

The mutation operations and derived views (`create`, `update`, `delete`,
`recordSnapshot`, `latestBefore`, `netWorthAsOf`, `currentBalance`) are part of
the application layer outside the persistence core; each is modelled from the
spec, as marked in its doc comment, with the storage schema of `db.rs` as the
authority on defaults, cascades and constraints.

`f64` balances are modelled as `Rat`; ISO date strings are compared with
byte-wise lexicographic order, matching SQLite TEXT comparison on ASCII dates.
-/

namespace Tally

/-- `AccountType` from `models/account.rs`. -/
inductive AccountType where
  | property
  | pension
  | investment
  | savings
  | mortgage
  | loan
  | creditCard
deriving DecidableEq, Repr

/-- `AccountCategory` from `models/account.rs`. -/
inductive AccountCategory where
  | asset
  | liability
deriving DecidableEq, Repr

/-- `AccountType::as_str` from `models/account.rs`. -/
def AccountType.asStr : AccountType → String
  | .property => "property"
  | .pension => "pension"
  | .investment => "investment"
  | .savings => "savings"
  | .mortgage => "mortgage"
  | .loan => "loan"
  | .creditCard => "credit_card"

/-- `AccountType::from_str` from `models/account.rs`. -/
def AccountType.fromStr (s : String) : Option AccountType :=
  if s = "property" then some .property
  else if s = "pension" then some .pension
  else if s = "investment" then some .investment
  else if s = "savings" then some .savings
  else if s = "mortgage" then some .mortgage
  else if s = "loan" then some .loan
  else if s = "credit_card" then some .creditCard
  else none

/-- `AccountCategory::as_str` from `models/account.rs`. -/
def AccountCategory.asStr : AccountCategory → String
  | .asset => "asset"
  | .liability => "liability"

/-- `AccountCategory::from_str` from `models/account.rs`. -/
def AccountCategory.fromStr (s : String) : Option AccountCategory :=
  if s = "asset" then some .asset
  else if s = "liability" then some .liability
  else none

/-- `AccountType::category` from `models/account.rs`: the pure derivation of a
category from an account type. -/
def AccountType.category : AccountType → AccountCategory
  | .property | .pension | .investment | .savings => .asset
  | .mortgage | .loan | .creditCard => .liability

/-- `Account` from `models/account.rs`. -/
structure Account where
  id : String
  name : String
  account_type : AccountType
  category : AccountCategory
  institution : Option String
  description : Option String
  currency : String
  is_active : Bool
  created_at : String
  updated_at : String
deriving DecidableEq, Repr

/-- `CreateAccountInput` from `models/account.rs`. Note it carries no
`category` field: a category can never be supplied by the caller. -/
structure CreateAccountInput where
  name : String
  account_type : AccountType
  institution : Option String
  description : Option String
  currency : Option String
deriving DecidableEq, Repr

/-- `UpdateAccountInput` from `models/account.rs`. Note it carries neither an
`account_type` nor a `category` field. -/
structure UpdateAccountInput where
  name : Option String
  institution : Option String
  description : Option String
  currency : Option String
  is_active : Option Bool
deriving DecidableEq, Repr

/-- Errors of the spec's error taxonomy (§7) used by the modelled operations. -/
inductive StoreError where
  | validationError
  | notFoundError
deriving DecidableEq, Repr

/-- Modelled from the spec: the Account Store `create` operation (§4.2), which
is not part of the persistence core under `src`. It rejects an empty name with
a `ValidationError`, derives `category` from `account_type` (§3 invariant),
defaults `currency` to the schema default `'GBP'` of migration 1 in `db.rs`,
and assigns the fresh id and timestamps it is given. -/
def createAccount (fresh_id now : String) (input : CreateAccountInput) :
    Except StoreError Account :=
  if input.name = "" then .error .validationError
  else .ok
    { id := fresh_id
      name := input.name
      account_type := input.account_type
      category := input.account_type.category
      institution := input.institution
      description := input.description
      currency := input.currency.getD "GBP"
      is_active := true
      created_at := now
      updated_at := now }

/-- Modelled from the spec: the Account Store `update` operation (§4.2), which
is not part of the persistence core under `src`. It applies only the provided
fields (`name`/`institution`/`description`/`currency`/`is_active`), refreshes
`updated_at`, and leaves `account_type` and `category` untouched (immutable
after creation). -/
def applyUpdate (a : Account) (u : UpdateAccountInput) (now : String) : Account :=
  { a with
    name := u.name.getD a.name
    institution := match u.institution with
      | some i => some i
      | none => a.institution
    description := match u.description with
      | some d => some d
      | none => a.description
    currency := u.currency.getD a.currency
    is_active := u.is_active.getD a.is_active
    updated_at := now }

/-- An arbitrary update history: each element is a partial update together with
the timestamp at which it is applied. -/
def applyUpdates (a : Account) (us : List (UpdateAccountInput × String)) : Account :=
  us.foldl (fun acc p => applyUpdate acc p.1 p.2) a

/-- `BalanceEntry` from `models/balance.rs`; the `f64` balance is modelled as
`Rat`. -/
structure BalanceEntry where
  id : String
  account_id : String
  date : String
  balance : Rat
  notes : Option String
  created_at : String
deriving DecidableEq, Repr

/-- `CreateBalanceInput` from `models/balance.rs`. -/
structure CreateBalanceInput where
  account_id : String
  date : String
  balance : Rat
  notes : Option String
deriving DecidableEq, Repr

/-- `Milestone`: the row shape of the `milestones` table created by migration 3
in `db.rs` (`account_id` is nullable). -/
structure Milestone where
  id : String
  date : String
  label : String
  account_id : Option String
  created_at : String
deriving DecidableEq, Repr

/-- Byte-wise lexicographic order on character lists: the comparison SQLite
applies to TEXT values, under which ISO date strings sort chronologically. -/
def lexLe : List Char → List Char → Bool
  | [], _ => true
  | _ :: _, [] => false
  | c :: cs, d :: ds => if c = d then lexLe cs ds else decide (c.toNat < d.toNat)

/-- `a ≤ b` on date strings, as SQLite TEXT comparison. -/
def dateLe (a b : String) : Bool := lexLe a.data b.data

/-- The pair identifying a balance entry: `(account_id, date)`, the columns of
the `UNIQUE(account_id, date)` constraint of migration 2 in `db.rs`. -/
def samePair (e : BalanceEntry) (aid date : String) : Bool :=
  e.account_id = aid && e.date = date

/-- Modelled from the spec: the Balance Ledger `recordSnapshot` operation
(§4.3), which is not part of the persistence core under `src`. If a row for
`(account_id, date)` exists it updates `balance`/`notes` of that row in place;
otherwise it inserts a new row. The `UNIQUE(account_id, date)` constraint of
migration 2 in `db.rs` is the storage-layer authority that a duplicate insert
is impossible. `applyCorrection` is the in-place update of one row. -/
def applyCorrection (input : CreateBalanceInput) (e : BalanceEntry) : BalanceEntry :=
  if samePair e input.account_id input.date then
    { e with balance := input.balance, notes := input.notes }
  else e

def recordSnapshot (entries : List BalanceEntry) (fresh_id now : String)
    (input : CreateBalanceInput) : List BalanceEntry :=
  if entries.any (fun e => samePair e input.account_id input.date) then
    entries.map (applyCorrection input)
  else
    entries ++ [{ id := fresh_id
                  account_id := input.account_id
                  date := input.date
                  balance := input.balance
                  notes := input.notes
                  created_at := now }]

/-- The full persisted state: one list per table of `db.rs`. -/
structure DbState where
  accounts : List Account
  balance_entries : List BalanceEntry
  milestones : List Milestone
deriving DecidableEq, Repr

/-- Account deletion with the referential actions declared by the schema in
`db.rs`: `balance_entries.account_id REFERENCES accounts(id) ON DELETE CASCADE`
(migration 2) deletes the account's balance rows, and
`milestones.account_id REFERENCES accounts(id) ON DELETE SET NULL`
(migration 3) clears the link on milestones that referenced it. -/
def deleteAccount (s : DbState) (aid : String) : DbState :=
  { accounts := s.accounts.filter (fun a => a.id ≠ aid)
    balance_entries := s.balance_entries.filter (fun e => e.account_id ≠ aid)
    milestones := s.milestones.map (fun m =>
      if m.account_id = some aid then { m with account_id := none } else m) }

/-- Modelled from the spec: the Balance Ledger `latestBefore` query (§4.3),
which is not part of the persistence core under `src`: the entry of the account
with the greatest date `≤` the given date, or `none` if no such entry exists. -/
def latestBefore (entries : List BalanceEntry) (aid date : String) :
    Option BalanceEntry :=
  (entries.filter (fun e => e.account_id = aid && dateLe e.date date)).foldl
    (fun best e =>
      match best with
      | none => some e
      | some b => if dateLe e.date b.date then some b else some e)
    none

/-- Modelled from the spec: the Derived View `currentBalance` (§4.5), which is
not part of the persistence core under `src`: `latestBefore(account_id, today)`. -/
def currentBalance (entries : List BalanceEntry) (aid today : String) :
    Option BalanceEntry :=
  latestBefore entries aid today

/-- `AccountWithBalance` from `models/account.rs`: the return shape of the
current-balance view; `current_balance` is a bare number (`f64` in the source)
while `balance_date` is optional. -/
structure AccountWithBalance where
  account : Account
  current_balance : Rat
  balance_date : Option String
deriving DecidableEq, Repr

/-- Modelled from the spec: filling the `AccountWithBalance` shape from
`currentBalance` (§4.5); with no recorded balance the numeric field carries `0`
and `balance_date` is `none`, with a recorded balance both carry the entry's
values. -/
def accountWithBalance (entries : List BalanceEntry) (today : String)
    (a : Account) : AccountWithBalance :=
  match currentBalance entries a.id today with
  | none => { account := a, current_balance := 0, balance_date := none }
  | some e => { account := a, current_balance := e.balance, balance_date := some e.date }

/-- The signed contribution of one entry of one account to net worth: asset
balances count positively, liability balances negatively. -/
def signedBalance (a : Account) (e : BalanceEntry) : Rat :=
  match a.category with
  | .asset => e.balance
  | .liability => -e.balance

/-- Modelled from the spec: the Derived View `netWorthAsOf` (§4.5), which is
not part of the persistence core under `src`: over the active accounts, add
each asset account's `latestBefore` balance and subtract each liability
account's; an account whose `latestBefore` is `none` is skipped. -/
def netWorthAsOf (accounts : List Account) (entries : List BalanceEntry)
    (date : String) : Rat :=
  (accounts.filter (fun a => a.is_active)).foldl
    (fun acc a =>
      match latestBefore entries a.id date with
      | none => acc
      | some e => acc + signedBalance a e)
    0

/-- Referential action of a `REFERENCES ... ON DELETE ...` clause in `db.rs`. -/
inductive OnDeleteAction where
  | cascade
  | setNull
deriving DecidableEq, Repr

/-- One column definition of a `CREATE TABLE` statement in `db.rs`:
`checkIn` is a `CHECK(col IN (...))` domain constraint, `defaultVal` the
textual `DEFAULT` expression, `references` a foreign key with its action. -/
structure ColumnDef where
  name : String
  colType : String
  notNull : Bool := false
  primaryKey : Bool := false
  defaultVal : Option String := none
  checkIn : Option (List String) := none
  references : Option (String × OnDeleteAction) := none
deriving DecidableEq, Repr

/-- A table definition; `uniques` lists table-level `UNIQUE(...)` constraints
by their column lists. -/
structure TableDef where
  name : String
  columns : List ColumnDef
  uniques : List (List String) := []
deriving DecidableEq, Repr

/-- A `CREATE INDEX` definition. -/
structure IndexDef where
  name : String
  table : String
  columns : List String
deriving DecidableEq, Repr

/-- A SQL statement of the migrations in `db.rs`: the three migrations contain
only `CREATE TABLE IF NOT EXISTS` and `CREATE INDEX IF NOT EXISTS` statements. -/
inductive SqlStmt where
  | createTableIfNotExists (t : TableDef)
  | createIndexIfNotExists (i : IndexDef)
deriving DecidableEq, Repr

/-- `MigrationKind` of the `tauri_plugin_sql` interface used in `db.rs`. -/
inductive MigrationKind where
  | up
  | down
deriving DecidableEq, Repr

/-- `Migration` of the `tauri_plugin_sql` interface used in `db.rs`, with the
SQL string transcribed as its list of statements. -/
structure Migration where
  version : Nat
  description : String
  statements : List SqlStmt
  kind : MigrationKind
deriving DecidableEq, Repr

/-- The `accounts` table of migration 1 in `db.rs`. -/
def accountsTable : TableDef :=
  { name := "accounts"
    columns :=
      [ { name := "id", colType := "TEXT", notNull := true, primaryKey := true }
      , { name := "name", colType := "TEXT", notNull := true }
      , { name := "account_type", colType := "TEXT", notNull := true,
          checkIn := some ["property", "pension", "investment", "savings",
                           "mortgage", "loan", "credit_card"] }
      , { name := "category", colType := "TEXT", notNull := true,
          checkIn := some ["asset", "liability"] }
      , { name := "institution", colType := "TEXT" }
      , { name := "description", colType := "TEXT" }
      , { name := "currency", colType := "TEXT", notNull := true,
          defaultVal := some "'GBP'" }
      , { name := "is_active", colType := "INTEGER", notNull := true,
          defaultVal := some "1" }
      , { name := "created_at", colType := "TEXT", notNull := true,
          defaultVal := some "(datetime('now'))" }
      , { name := "updated_at", colType := "TEXT", notNull := true,
          defaultVal := some "(datetime('now'))" } ] }

/-- The `balance_entries` table of migration 2 in `db.rs`. -/
def balanceEntriesTable : TableDef :=
  { name := "balance_entries"
    columns :=
      [ { name := "id", colType := "TEXT", notNull := true, primaryKey := true }
      , { name := "account_id", colType := "TEXT", notNull := true,
          references := some ("accounts", .cascade) }
      , { name := "date", colType := "TEXT", notNull := true }
      , { name := "balance", colType := "REAL", notNull := true }
      , { name := "notes", colType := "TEXT" }
      , { name := "created_at", colType := "TEXT", notNull := true,
          defaultVal := some "(datetime('now'))" } ]
    uniques := [["account_id", "date"]] }

/-- The `milestones` table of migration 3 in `db.rs`. -/
def milestonesTable : TableDef :=
  { name := "milestones"
    columns :=
      [ { name := "id", colType := "TEXT", notNull := true, primaryKey := true }
      , { name := "date", colType := "TEXT", notNull := true }
      , { name := "label", colType := "TEXT", notNull := true }
      , { name := "account_id", colType := "TEXT",
          references := some ("accounts", .setNull) }
      , { name := "created_at", colType := "TEXT", notNull := true,
          defaultVal := some "(datetime('now'))" } ] }

/-- `get_migrations` from `db.rs`: the ordered migration list. -/
def get_migrations : List Migration :=
  [ { version := 1
      description := "create_accounts_table"
      statements := [.createTableIfNotExists accountsTable]
      kind := .up }
  , { version := 2
      description := "create_balance_entries_table"
      statements :=
        [ .createTableIfNotExists balanceEntriesTable
        , .createIndexIfNotExists
            { name := "idx_balance_entries_account_date"
              table := "balance_entries"
              columns := ["account_id", "date"] }
        , .createIndexIfNotExists
            { name := "idx_balance_entries_date"
              table := "balance_entries"
              columns := ["date"] } ]
      kind := .up }
  , { version := 3
      description := "create_milestones_table"
      statements :=
        [ .createTableIfNotExists milestonesTable
        , .createIndexIfNotExists
            { name := "idx_milestones_date"
              table := "milestones"
              columns := ["date"] } ]
      kind := .up } ]

/-- The `CHECK(col IN (...))` domain of a column of a table, when declared. -/
def checkOf (t : TableDef) (col : String) : Option (List String) :=
  match t.columns.find? (fun c => c.name = col) with
  | none => none
  | some c => c.checkIn

/-- Whether a value for one column passes that column's CHECK constraint
(a column with no CHECK accepts anything). -/
def inCheck (t : TableDef) (col v : String) : Bool :=
  match checkOf t col with
  | none => true
  | some dom => dom.contains v

/-- Whether the accounts-table CHECK constraints of migration 1 in `db.rs`
accept a row with the given `account_type` and `category` values: each of the
two columns carries its own `IN (...)` domain check, and these are the only
constraints mentioning them. -/
def accountsRowAccepted (account_type category : String) : Bool :=
  inCheck accountsTable "account_type" account_type &&
    inCheck accountsTable "category" category

/-- The schema-plus-data state of the SQLite store: its tables, its indexes,
and its stored rows tagged by table name (`CREATE` statements never touch
rows). -/
structure Store where
  tables : List TableDef
  indexes : List IndexDef
  rows : List (String × List String)
deriving DecidableEq, Repr

def hasTable (s : Store) (n : String) : Bool :=
  s.tables.any (fun t => t.name = n)

def hasIndex (s : Store) (n : String) : Bool :=
  s.indexes.any (fun i => i.name = n)

/-- SQLite semantics of the two statement forms used in `db.rs`:
`CREATE ... IF NOT EXISTS` creates the object unless one of that name already
exists, in which case it does nothing. -/
def applyStmt (s : Store) : SqlStmt → Store
  | .createTableIfNotExists t =>
      if hasTable s t.name then s else { s with tables := s.tables ++ [t] }
  | .createIndexIfNotExists i =>
      if hasIndex s i.name then s else { s with indexes := s.indexes ++ [i] }

/-- Run one migration's statements in order. -/
def applyMigration (s : Store) (m : Migration) : Store :=
  m.statements.foldl applyStmt s

/-- Run a migration list in order. -/
def applyAll (s : Store) (ms : List Migration) : Store :=
  ms.foldl applyMigration s

/-- Modelled from the spec: the migration runner of the external SQL plugin
(§4.1), which is not part of this repository: for a store at schema version
`v`, the steps applied are exactly those with version `> v`, in list order. -/
def stepsToApply (v : Nat) (ms : List Migration) : List Migration :=
  ms.filter (fun m => v < m.version)

/-- The uninitialized store of a cold start. -/
def emptyStore : Store :=
  { tables := [], indexes := [], rows := [] }

/-- The invariant of the `UNIQUE(account_id, date)` constraint of migration 2
in `db.rs`: no two ledger rows share the `(account_id, date)` pair. -/
def pairwiseUnique (entries : List BalanceEntry) : Prop :=
  entries.Pairwise (fun e1 e2 => ¬(e1.account_id = e2.account_id ∧ e1.date = e2.date))

instance (entries : List BalanceEntry) : Decidable (pairwiseUnique entries) := by
  unfold pairwiseUnique
  infer_instance

/-! Concrete fixtures used by the witness theorems. -/

def inputW : CreateAccountInput :=
  { name := "Main Savings", account_type := .savings, institution := none,
    description := none, currency := none }

def acctW : Account :=
  { id := "a1", name := "Main Savings", account_type := .savings,
    category := .asset, institution := none, description := none,
    currency := "GBP", is_active := true, created_at := "t0", updated_at := "t0" }

def updsW : List (UpdateAccountInput × String) :=
  [({ name := some "Renamed", institution := some "Bank", description := none,
      currency := none, is_active := some false }, "t1")]

def inpW1 : CreateBalanceInput :=
  { account_id := "a1", date := "2024-01-01", balance := 100, notes := none }

def inpW2 : CreateBalanceInput :=
  { account_id := "a1", date := "2024-01-01", balance := 200, notes := some "fix" }

def entW1 : BalanceEntry :=
  { id := "b1", account_id := "a1", date := "2024-01-01", balance := 100,
    notes := none, created_at := "t0" }

def entW2 : BalanceEntry :=
  { id := "b2", account_id := "a2", date := "2024-01-02", balance := 50,
    notes := none, created_at := "t0" }

def entW0 : BalanceEntry :=
  { id := "b0", account_id := "a1", date := "2024-02-01", balance := 0,
    notes := none, created_at := "t0" }

def msW1 : Milestone :=
  { id := "m1", date := "2024-06-01", label := "goal", account_id := some "a1",
    created_at := "t0" }

def msW2 : Milestone :=
  { id := "m2", date := "2024-07-01", label := "other", account_id := none,
    created_at := "t0" }

def dbW : DbState :=
  { accounts := [acctW], balance_entries := [entW1, entW2],
    milestones := [msW1, msW2] }

end Tally

namespace Tally

/-! Helper lemmas. -/

theorem applyUpdates_fixed_fields (a : Account)
    (us : List (UpdateAccountInput × String)) :
    (applyUpdates a us).account_type = a.account_type ∧
    (applyUpdates a us).category = a.category := by
  induction us generalizing a with
  | nil => exact ⟨rfl, rfl⟩
  | cons p us ih =>
      have h := ih (applyUpdate a p.1 p.2)
      simpa [applyUpdates, applyUpdate] using h

/-- C10: the string codecs are exact inverses over the enumerated domains:
`from_str (as_str t) = some t` for every account type and category, and
`from_str` returns `none` exactly on the strings outside the enumerated
names. -/
theorem codec_roundtrip :
    (∀ t : AccountType, AccountType.fromStr t.asStr = some t) ∧
    (∀ s : String, AccountType.fromStr s = none ↔
      s ∉ (["property", "pension", "investment", "savings", "mortgage", "loan",
            "credit_card"] : List String)) ∧
    (∀ c : AccountCategory, AccountCategory.fromStr c.asStr = some c) ∧
    (∀ s : String, AccountCategory.fromStr s = none ↔
      s ∉ (["asset", "liability"] : List String)) := by
  refine ⟨fun t => by cases t <;> rfl, fun s => ?_,
          fun c => by cases c <;> rfl, fun s => ?_⟩
  · unfold AccountType.fromStr
    split_ifs with h1 h2 h3 h4 h5 h6 h7 <;> simp_all
  · unfold AccountCategory.fromStr
    split_ifs with h1 h2 <;> simp_all

/-- C1: an account built by `create` and carried through any update history has
`category` equal to the pure derivation from its `account_type`, and the
derivation maps property/pension/investment/savings to asset and
mortgage/loan/credit_card to liability. (`CreateAccountInput` and
`UpdateAccountInput` carry no category field, so a category is never accepted
as input.) -/
theorem category_always_derived
    (fresh_id now : String) (input : CreateAccountInput) (a : Account)
    (h : createAccount fresh_id now input = .ok a)
    (us : List (UpdateAccountInput × String)) :
    (applyUpdates a us).category = AccountType.category (applyUpdates a us).account_type ∧
    AccountType.category .property = .asset ∧
    AccountType.category .pension = .asset ∧
    AccountType.category .investment = .asset ∧
    AccountType.category .savings = .asset ∧
    AccountType.category .mortgage = .liability ∧
    AccountType.category .loan = .liability ∧
    AccountType.category .creditCard = .liability := by
  have hc : a.category = AccountType.category a.account_type := by
    unfold createAccount at h
    split at h
    · exact Except.noConfusion h
    · cases h
      rfl
  have hf := applyUpdates_fixed_fields a us
  exact ⟨by rw [hf.1, hf.2, hc], rfl, rfl, rfl, rfl, rfl, rfl, rfl⟩

/-- Witness for C1 at a concrete creation and update history. -/
theorem category_always_derived_witness :
    createAccount "a1" "t0" inputW = .ok acctW ∧
    (applyUpdates acctW updsW).category =
      AccountType.category (applyUpdates acctW updsW).account_type :=
  ⟨rfl, (category_always_derived "a1" "t0" inputW acctW rfl updsW).1⟩

/-- C9: an account built by `create` stores the schema default currency `'GBP'`
when the input leaves `currency` unspecified, and stores the supplied value
when one is given. -/
theorem currency_defaulted
    (fresh_id now : String) (input : CreateAccountInput) (a : Account)
    (h : createAccount fresh_id now input = .ok a) :
    a.currency = input.currency.getD "GBP" ∧
    (input.currency = none → a.currency = "GBP") ∧
    (∀ c : String, input.currency = some c → a.currency = c) := by
  have hc : a.currency = input.currency.getD "GBP" := by
    unfold createAccount at h
    split at h
    · exact Except.noConfusion h
    · cases h
      rfl
  refine ⟨hc, fun hn => ?_, fun c hs => ?_⟩
  · rw [hc, hn]
    rfl
  · rw [hc, hs]
    rfl

/-- Witness for C9: `inputW` leaves currency unspecified and the stored account
carries `'GBP'`. -/
theorem currency_defaulted_witness :
    createAccount "a1" "t0" inputW = .ok acctW ∧
    inputW.currency = none ∧ acctW.currency = "GBP" :=
  ⟨rfl, rfl, (currency_defaulted "a1" "t0" inputW acctW rfl).2.1 rfl⟩

theorem samePair_iff (e : BalanceEntry) (aid d : String) :
    samePair e aid d = true ↔ (e.account_id = aid ∧ e.date = d) := by
  simp [samePair]

theorem applyCorrection_pair (input : CreateBalanceInput) (e : BalanceEntry) :
    (applyCorrection input e).account_id = e.account_id ∧
    (applyCorrection input e).date = e.date := by
  unfold applyCorrection
  split <;> exact ⟨rfl, rfl⟩

theorem count_pair_le_one (es : List BalanceEntry) (hu : pairwiseUnique es)
    (aid d : String) :
    es.countP (fun e => samePair e aid d) ≤ 1 := by
  induction es with
  | nil => simp
  | cons e es ih =>
      have hu' : pairwiseUnique es := hu.of_cons
      have hrel : ∀ b ∈ es, ¬(e.account_id = b.account_id ∧ e.date = b.date) :=
        fun b hb => List.rel_of_pairwise_cons hu hb
      rw [List.countP_cons]
      by_cases hp : samePair e aid d = true
      · have h0 : es.countP (fun e => samePair e aid d) = 0 := by
          rw [List.countP_eq_zero]
          intro b hb hpb
          obtain ⟨ha1, hd1⟩ := (samePair_iff e aid d).mp hp
          obtain ⟨ha2, hd2⟩ := (samePair_iff b aid d).mp hpb
          exact hrel b hb ⟨ha1.trans ha2.symm, hd1.trans hd2.symm⟩
        simp [h0, hp]
      · simp only [hp, if_neg]
        simpa using ih hu'

theorem recordSnapshot_update (entries : List BalanceEntry) (f n : String)
    (inp : CreateBalanceInput)
    (h : entries.any (fun e => samePair e inp.account_id inp.date) = true) :
    recordSnapshot entries f n inp = entries.map (applyCorrection inp) := by
  unfold recordSnapshot
  rw [if_pos h]

theorem count_pair_after_snapshot (es : List BalanceEntry) (hu : pairwiseUnique es)
    (f n : String) (inp : CreateBalanceInput) :
    (recordSnapshot es f n inp).countP
      (fun e => samePair e inp.account_id inp.date) = 1 := by
  unfold recordSnapshot
  split
  case isTrue hany =>
    rw [List.countP_map]
    have hpres : ((fun e => samePair e inp.account_id inp.date) ∘ applyCorrection inp)
        = fun e => samePair e inp.account_id inp.date := by
      funext e
      simp [Function.comp, samePair, (applyCorrection_pair inp e).1,
            (applyCorrection_pair inp e).2]
    rw [hpres]
    have hle := count_pair_le_one es hu inp.account_id inp.date
    have hge : 0 < es.countP (fun e => samePair e inp.account_id inp.date) := by
      rw [List.countP_pos_iff]
      rw [List.any_eq_true] at hany
      exact hany
    omega
  case isFalse hany =>
    rw [List.countP_append]
    have h0 : es.countP (fun e => samePair e inp.account_id inp.date) = 0 := by
      rw [List.countP_eq_zero]
      intro b hb hpb
      exact hany (List.any_eq_true.mpr ⟨b, hb, hpb⟩)
    rw [h0]
    simp [samePair]

theorem snapshot_preserves_unique (es : List BalanceEntry) (hu : pairwiseUnique es)
    (f n : String) (inp : CreateBalanceInput) :
    pairwiseUnique (recordSnapshot es f n inp) := by
  unfold recordSnapshot
  split
  case isTrue hany =>
    unfold pairwiseUnique at hu ⊢
    refine List.Pairwise.map _ ?_ hu
    intro a b hab hcon
    rw [(applyCorrection_pair inp a).1, (applyCorrection_pair inp a).2,
        (applyCorrection_pair inp b).1, (applyCorrection_pair inp b).2] at hcon
    exact hab hcon
  case isFalse hany =>
    unfold pairwiseUnique at hu ⊢
    rw [List.pairwise_append]
    refine ⟨hu, List.pairwise_singleton _ _, ?_⟩
    intro a ha b hb hcon
    simp only [List.mem_singleton] at hb
    subst hb
    apply hany
    rw [List.any_eq_true]
    exact ⟨a, ha, (samePair_iff a _ _).mpr ⟨hcon.1, hcon.2⟩⟩

theorem countP_one_filter {p : BalanceEntry → Bool} (l : List BalanceEntry)
    (h : l.countP p = 1) : ∃ e, l.filter p = [e] ∧ p e = true := by
  have hlen : (l.filter p).length = 1 := by
    rw [← h]
    exact (List.countP_eq_length_filter p l).symm
  obtain ⟨e, he⟩ := List.length_eq_one.mp hlen
  refine ⟨e, he, ?_⟩
  have : e ∈ l.filter p := by
    rw [he]
    exact List.mem_singleton_self e
  exact (List.mem_filter.mp this).2

/-- C2: writing snapshots preserves the one-row-per-`(account_id, date)`
invariant (never a duplicate row), and writing the same pair twice with
different balances leaves exactly one row for the pair, holding the second
write's balance and notes. -/
theorem snapshot_pair_unique
    (es : List BalanceEntry) (hu : pairwiseUnique es)
    (f1 n1 f2 n2 : String) (inp1 inp2 : CreateBalanceInput)
    (haid : inp1.account_id = inp2.account_id) (hdate : inp1.date = inp2.date) :
    pairwiseUnique (recordSnapshot es f1 n1 inp1) ∧
    (∀ aid d : String,
      (recordSnapshot es f1 n1 inp1).countP (fun e => samePair e aid d) ≤ 1) ∧
    (recordSnapshot (recordSnapshot es f1 n1 inp1) f2 n2 inp2).countP
      (fun e => samePair e inp2.account_id inp2.date) = 1 ∧
    ((recordSnapshot (recordSnapshot es f1 n1 inp1) f2 n2 inp2).filter
        (fun e => samePair e inp2.account_id inp2.date)).map
        (fun e => (e.balance, e.notes)) = [(inp2.balance, inp2.notes)] := by
  have hu1 : pairwiseUnique (recordSnapshot es f1 n1 inp1) :=
    snapshot_preserves_unique es hu f1 n1 inp1
  have hcount1 : (recordSnapshot es f1 n1 inp1).countP
      (fun e => samePair e inp2.account_id inp2.date) = 1 := by
    rw [← haid, ← hdate]
    exact count_pair_after_snapshot es hu f1 n1 inp1
  refine ⟨hu1, fun aid d => count_pair_le_one _ hu1 aid d,
          count_pair_after_snapshot _ hu1 f2 n2 inp2, ?_⟩
  have hany : (recordSnapshot es f1 n1 inp1).any
      (fun e => samePair e inp2.account_id inp2.date) = true := by
    by_contra hfalse
    have h0 : (recordSnapshot es f1 n1 inp1).countP
        (fun e => samePair e inp2.account_id inp2.date) = 0 := by
      rw [List.countP_eq_zero]
      intro b hb hpb
      exact hfalse (List.any_eq_true.mpr ⟨b, hb, hpb⟩)
    omega
  rw [recordSnapshot_update _ f2 n2 inp2 hany]
  have hpres : ∀ e, (fun e => samePair e inp2.account_id inp2.date)
      (applyCorrection inp2 e) = samePair e inp2.account_id inp2.date := by
    intro e
    simp [samePair, (applyCorrection_pair inp2 e).1, (applyCorrection_pair inp2 e).2]
  rw [List.filter_map]
  have hcomp : ((fun e => samePair e inp2.account_id inp2.date) ∘ applyCorrection inp2)
      = fun e => samePair e inp2.account_id inp2.date := funext hpres
  rw [hcomp]
  obtain ⟨e0, hfil, hp0⟩ := countP_one_filter _ hcount1
  rw [hfil]
  simp only [List.map_cons, List.map_nil]
  unfold applyCorrection
  rw [if_pos hp0]

/-- Witness for C2: two writes for the pair `("a1", "2024-01-01")`, the second
with balance 200, leave one row for the pair holding 200. -/
theorem snapshot_pair_unique_witness :
    pairwiseUnique [entW2] ∧
    ((recordSnapshot (recordSnapshot [entW2] "b1" "t0" inpW1) "b9" "t1" inpW2).filter
        (fun e => samePair e inpW2.account_id inpW2.date)).map
        (fun e => (e.balance, e.notes)) = [(inpW2.balance, inpW2.notes)] :=
  ⟨by decide,
   (snapshot_pair_unique [entW2] (by decide) "b1" "t0" "b9" "t1" inpW1 inpW2
      rfl rfl).2.2.2⟩

/-- C3: deleting an account removes exactly that account from the accounts
table and exactly its rows from the ledger (every other account's entries
survive unchanged), clears the link on exactly the milestones that referenced
it, keeps every unlinked milestone unchanged, and deletes no milestone. -/
theorem delete_account_frame (s : DbState) (aid : String) :
    (∀ e : BalanceEntry, e ∈ (deleteAccount s aid).balance_entries ↔
       (e ∈ s.balance_entries ∧ e.account_id ≠ aid)) ∧
    (∀ a : Account, a ∈ (deleteAccount s aid).accounts ↔
       (a ∈ s.accounts ∧ a.id ≠ aid)) ∧
    (∀ m ∈ s.milestones, m.account_id = some aid →
       { m with account_id := none } ∈ (deleteAccount s aid).milestones) ∧
    (∀ m ∈ s.milestones, m.account_id ≠ some aid →
       m ∈ (deleteAccount s aid).milestones) ∧
    (∀ m' ∈ (deleteAccount s aid).milestones,
       (m' ∈ s.milestones ∧ m'.account_id ≠ some aid) ∨
       (∃ m0 ∈ s.milestones, m0.account_id = some aid ∧
          m' = { m0 with account_id := none })) ∧
    (deleteAccount s aid).milestones.length = s.milestones.length := by
  refine ⟨fun e => ?_, fun a => ?_, fun m hm hlink => ?_, fun m hm hlink => ?_,
          fun m' hm' => ?_, ?_⟩
  · simp [deleteAccount, List.mem_filter]
  · simp [deleteAccount, List.mem_filter]
  · have : (if m.account_id = some aid then { m with account_id := none } else m)
        ∈ (deleteAccount s aid).milestones := List.mem_map_of_mem _ hm
    rwa [if_pos hlink] at this
  · have : (if m.account_id = some aid then { m with account_id := none } else m)
        ∈ (deleteAccount s aid).milestones := List.mem_map_of_mem _ hm
    rwa [if_neg hlink] at this
  · obtain ⟨m0, hm0, heq⟩ := List.mem_map.mp hm'
    by_cases hl : m0.account_id = some aid
    · right
      exact ⟨m0, hm0, hl, by rw [← heq, if_pos hl]⟩
    · left
      rw [← heq, if_neg hl]
      exact ⟨hm0, hl⟩
  · exact List.length_map _ _

/-- Witness for C3 at a concrete database state. -/
theorem delete_account_frame_witness :
    entW2 ∈ (deleteAccount dbW "a1").balance_entries ∧
    entW1 ∉ (deleteAccount dbW "a1").balance_entries ∧
    { msW1 with account_id := none } ∈ (deleteAccount dbW "a1").milestones ∧
    msW2 ∈ (deleteAccount dbW "a1").milestones :=
  ⟨((delete_account_frame dbW "a1").1 entW2).mpr ⟨by decide, by decide⟩,
   fun h => absurd (((delete_account_frame dbW "a1").1 entW1).mp h).2 (by decide),
   (delete_account_frame dbW "a1").2.2.1 msW1 (by decide) (by decide),
   (delete_account_frame dbW "a1").2.2.2.1 msW2 (by decide) (by decide)⟩

/-- C5: the migration list carries versions exactly `[1, 2, 3]` (strictly
ascending consecutive integers from 1), every step has kind `Up` and consists
only of create-table/create-index statements, and the runner applies, for a
store at version `v`, exactly the steps with version `> v`, in ascending
order, each exactly once. -/
theorem migrations_ordered (v : Nat) :
    get_migrations.map Migration.version = [1, 2, 3] ∧
    (∀ m ∈ get_migrations, m.kind = .up) ∧
    (∀ m ∈ get_migrations, ∀ st ∈ m.statements,
       (∃ t, st = .createTableIfNotExists t) ∨
       (∃ i, st = .createIndexIfNotExists i)) ∧
    (∀ m : Migration, m ∈ stepsToApply v get_migrations ↔
       (m ∈ get_migrations ∧ v < m.version)) ∧
    (stepsToApply v get_migrations).Sublist get_migrations ∧
    ((stepsToApply v get_migrations).map Migration.version).Sorted (· < ·) ∧
    (∀ m ∈ stepsToApply v get_migrations,
       (stepsToApply v get_migrations).count m = 1) := by
  have hsub : (stepsToApply v get_migrations).Sublist get_migrations :=
    List.filter_sublist get_migrations
  have hnodup : get_migrations.Nodup := by decide
  refine ⟨rfl, ?_, ?_, fun m => ?_, hsub, ?_, fun m hm => ?_⟩
  · intro m hm
    simp only [get_migrations, List.mem_cons, List.not_mem_nil, or_false] at hm
    rcases hm with rfl | rfl | rfl <;> rfl
  · intro m hm st hst
    simp only [get_migrations, List.mem_cons, List.not_mem_nil, or_false] at hm
    rcases hm with rfl | rfl | rfl <;>
      simp only [List.mem_cons, List.not_mem_nil, or_false] at hst
    · rcases hst with rfl
      exact Or.inl ⟨_, rfl⟩
    · rcases hst with rfl | rfl | rfl
      · exact Or.inl ⟨_, rfl⟩
      · exact Or.inr ⟨_, rfl⟩
      · exact Or.inr ⟨_, rfl⟩
    · rcases hst with rfl | rfl
      · exact Or.inl ⟨_, rfl⟩
      · exact Or.inr ⟨_, rfl⟩
  · unfold stepsToApply
    rw [List.mem_filter]
    simp
  · have hmap : ((stepsToApply v get_migrations).map Migration.version).Sublist
        (get_migrations.map Migration.version) := hsub.map Migration.version
    have hsorted : (get_migrations.map Migration.version).Sorted (· < ·) := by
      decide
    exact List.Pairwise.sublist hmap hsorted
  · exact List.count_eq_one_of_mem (hnodup.sublist hsub) hm

/-- Witness for C5 at version 1: the steps still to apply are migrations 2
and 3. -/
theorem migrations_ordered_witness :
    ((stepsToApply 1 get_migrations).map Migration.version).Sorted (· < ·) ∧
    (stepsToApply 1 get_migrations).map Migration.version = [2, 3] :=
  ⟨(migrations_ordered 1).2.2.2.2.2.1, by decide⟩

theorem applyStmt_rows (s : Store) (st : SqlStmt) : (applyStmt s st).rows = s.rows := by
  cases st <;> simp only [applyStmt] <;> split <;> rfl

theorem hasTable_mono (s : Store) (st : SqlStmt) (n : String)
    (h : hasTable s n = true) : hasTable (applyStmt s st) n = true := by
  cases st with
  | createTableIfNotExists t =>
      simp only [applyStmt]
      split
      · exact h
      · unfold hasTable at h ⊢
        rw [List.any_eq_true] at h ⊢
        obtain ⟨x, hx, hp⟩ := h
        exact ⟨x, List.mem_append_left _ hx, hp⟩
  | createIndexIfNotExists i =>
      simp only [applyStmt]
      split <;> exact h

theorem hasIndex_mono (s : Store) (st : SqlStmt) (n : String)
    (h : hasIndex s n = true) : hasIndex (applyStmt s st) n = true := by
  cases st with
  | createTableIfNotExists t =>
      simp only [applyStmt]
      split <;> exact h
  | createIndexIfNotExists i =>
      simp only [applyStmt]
      split
      · exact h
      · unfold hasIndex at h ⊢
        rw [List.any_eq_true] at h ⊢
        obtain ⟨x, hx, hp⟩ := h
        exact ⟨x, List.mem_append_left _ hx, hp⟩

theorem applyStmt_table_self (s : Store) (t : TableDef) :
    hasTable (applyStmt s (.createTableIfNotExists t)) t.name = true := by
  simp only [applyStmt]
  split
  case isTrue h => exact h
  case isFalse h =>
    unfold hasTable
    rw [List.any_eq_true]
    exact ⟨t, List.mem_append_right _ (List.mem_singleton_self t), by simp⟩

theorem applyStmt_index_self (s : Store) (i : IndexDef) :
    hasIndex (applyStmt s (.createIndexIfNotExists i)) i.name = true := by
  simp only [applyStmt]
  split
  case isTrue h => exact h
  case isFalse h =>
    unfold hasIndex
    rw [List.any_eq_true]
    exact ⟨i, List.mem_append_right _ (List.mem_singleton_self i), by simp⟩

theorem applyStmt_noop_table (s : Store) (t : TableDef)
    (h : hasTable s t.name = true) :
    applyStmt s (.createTableIfNotExists t) = s := by
  simp only [applyStmt]
  rw [if_pos h]

theorem applyStmt_noop_index (s : Store) (i : IndexDef)
    (h : hasIndex s i.name = true) :
    applyStmt s (.createIndexIfNotExists i) = s := by
  simp only [applyStmt]
  rw [if_pos h]

theorem applyAll_migrations_eq (s : Store) :
    applyAll s get_migrations =
      applyStmt (applyStmt (applyStmt (applyStmt (applyStmt (applyStmt s
        (.createTableIfNotExists accountsTable))
        (.createTableIfNotExists balanceEntriesTable))
        (.createIndexIfNotExists ⟨"idx_balance_entries_account_date",
          "balance_entries", ["account_id", "date"]⟩))
        (.createIndexIfNotExists ⟨"idx_balance_entries_date",
          "balance_entries", ["date"]⟩))
        (.createTableIfNotExists milestonesTable))
        (.createIndexIfNotExists ⟨"idx_milestones_date", "milestones", ["date"]⟩) :=
  rfl

/-- C6: re-running the whole migration sequence on any store that already ran
it is a no-op (the `IF NOT EXISTS` guard skips every statement), migration
never touches stored rows, and the cold-start schema has exactly one table and
one index per created name. -/
theorem migration_rerun_noop (s : Store) :
    applyAll (applyAll s get_migrations) get_migrations = applyAll s get_migrations ∧
    (applyAll s get_migrations).rows = s.rows ∧
    (applyAll emptyStore get_migrations).tables.map TableDef.name
      = ["accounts", "balance_entries", "milestones"] ∧
    (applyAll emptyStore get_migrations).indexes.map IndexDef.name
      = ["idx_balance_entries_account_date", "idx_balance_entries_date",
         "idx_milestones_date"] := by
  have hsecond : ∀ r : Store, hasTable r "accounts" = true →
      hasTable r "balance_entries" = true → hasTable r "milestones" = true →
      hasIndex r "idx_balance_entries_account_date" = true →
      hasIndex r "idx_balance_entries_date" = true →
      hasIndex r "idx_milestones_date" = true →
      applyAll r get_migrations = r := by
    intro r t1 t2 t3 i1 i2 i3
    rw [applyAll_migrations_eq r, applyStmt_noop_table r accountsTable t1,
        applyStmt_noop_table r balanceEntriesTable t2,
        applyStmt_noop_index r _ i1, applyStmt_noop_index r _ i2,
        applyStmt_noop_table r milestonesTable t3,
        applyStmt_noop_index r _ i3]
  have t1 : hasTable (applyAll s get_migrations) "accounts" = true := by
    rw [applyAll_migrations_eq s]
    exact hasTable_mono _ _ _ (hasTable_mono _ _ _ (hasTable_mono _ _ _
      (hasTable_mono _ _ _ (hasTable_mono _ _ _ (applyStmt_table_self s accountsTable)))))
  have t2 : hasTable (applyAll s get_migrations) "balance_entries" = true := by
    rw [applyAll_migrations_eq s]
    exact hasTable_mono _ _ _ (hasTable_mono _ _ _ (hasTable_mono _ _ _
      (hasTable_mono _ _ _ (applyStmt_table_self _ balanceEntriesTable))))
  have t3 : hasTable (applyAll s get_migrations) "milestones" = true := by
    rw [applyAll_migrations_eq s]
    exact hasTable_mono _ _ _ (applyStmt_table_self _ milestonesTable)
  have i1 : hasIndex (applyAll s get_migrations)
      "idx_balance_entries_account_date" = true := by
    rw [applyAll_migrations_eq s]
    exact hasIndex_mono _ _ _ (hasIndex_mono _ _ _ (hasIndex_mono _ _ _
      (applyStmt_index_self _ _)))
  have i2 : hasIndex (applyAll s get_migrations)
      "idx_balance_entries_date" = true := by
    rw [applyAll_migrations_eq s]
    exact hasIndex_mono _ _ _ (hasIndex_mono _ _ _ (applyStmt_index_self _ _))
  have i3 : hasIndex (applyAll s get_migrations) "idx_milestones_date" = true := by
    rw [applyAll_migrations_eq s]
    exact applyStmt_index_self _ _
  refine ⟨hsecond _ t1 t2 t3 i1 i2 i3, ?_, by decide, by decide⟩
  rw [applyAll_migrations_eq s]
  simp only [applyStmt_rows]

/-- Witness for C6 from the cold-start store. -/
theorem migration_rerun_noop_witness :
    applyAll (applyAll emptyStore get_migrations) get_migrations
      = applyAll emptyStore get_migrations ∧
    (applyAll emptyStore get_migrations).rows = emptyStore.rows :=
  ⟨(migration_rerun_noop emptyStore).1, (migration_rerun_noop emptyStore).2.1⟩

theorem netWorth_foldl (entries : List BalanceEntry) (date : String)
    (l : List Account) (acc : Rat) :
    l.foldl (fun acc a =>
      match latestBefore entries a.id date with
      | none => acc
      | some e => acc + signedBalance a e) acc
    = acc + ((l.filter (fun a => (latestBefore entries a.id date).isSome)).map
        (fun a => ((latestBefore entries a.id date).map (signedBalance a)).getD 0)).sum := by
  induction l generalizing acc with
  | nil => simp
  | cons a l ih =>
      simp only [List.foldl_cons, List.filter_cons]
      cases h : latestBefore entries a.id date with
      | none => simp [h, ih]
      | some e =>
          simp [h, ih]
          ring

theorem latestBefore_foldl_some (l : List BalanceEntry) (b : BalanceEntry) :
    (l.foldl (fun best e =>
      match best with
      | none => some e
      | some c => if dateLe e.date c.date then some c else some e) (some b)).isSome
      = true := by
  induction l generalizing b with
  | nil => rfl
  | cons x l ih =>
      rw [List.foldl_cons]
      cases hd : dateLe x.date b.date <;> simp [hd, ih]

theorem latestBefore_isSome_iff (entries : List BalanceEntry) (aid d : String) :
    (latestBefore entries aid d).isSome = true ↔
      ∃ e ∈ entries, e.account_id = aid ∧ dateLe e.date d = true := by
  unfold latestBefore
  cases hl : entries.filter (fun e => e.account_id = aid && dateLe e.date d) with
  | nil =>
      simp only [hl, List.foldl_nil]
      constructor
      · intro h
        exact absurd h (by simp)
      · rintro ⟨e, he, ha, hd2⟩
        have : e ∈ entries.filter (fun e => e.account_id = aid && dateLe e.date d) :=
          List.mem_filter.mpr ⟨he, by simp [ha, hd2]⟩
        rw [hl] at this
        exact absurd this (List.not_mem_nil e)
  | cons x l =>
      simp only [hl, List.foldl_cons]
      constructor
      · intro _
        have hx : x ∈ entries.filter (fun e => e.account_id = aid && dateLe e.date d) := by
          rw [hl]
          exact List.mem_cons_self x l
        obtain ⟨hxe, hxp⟩ := List.mem_filter.mp hx
        refine ⟨x, hxe, ?_, ?_⟩ <;> simp_all
      · intro _
        exact latestBefore_foldl_some l x

theorem latestBefore_none_of_no_entries (entries : List BalanceEntry)
    (aid d : String) (h : ∀ e ∈ entries, e.account_id ≠ aid) :
    latestBefore entries aid d = none := by
  unfold latestBefore
  have hnil : entries.filter (fun e => e.account_id = aid && dateLe e.date d) = [] := by
    rw [List.filter_eq_nil_iff]
    intro e he
    simp [h e he]
  rw [hnil]
  rfl

/-- C7: `netWorthAsOf` equals the sum, over the active accounts that have an
entry on or before the date, of the signed `latestBefore` balance (asset
balances added, liability balances subtracted); an inactive account, or one
with no entry on or before the date, contributes nothing — it is dropped from
the aggregation rather than counted as zero. -/
theorem net_worth_characterization (accounts : List Account)
    (entries : List BalanceEntry) (date : String) :
    netWorthAsOf accounts entries date =
      (((accounts.filter (fun a => a.is_active)).filter
          (fun a => (latestBefore entries a.id date).isSome)).map
        (fun a => ((latestBefore entries a.id date).map (signedBalance a)).getD 0)).sum ∧
    (∀ (a : Account) (rest : List Account), a.is_active = false →
       netWorthAsOf (a :: rest) entries date = netWorthAsOf rest entries date) ∧
    (∀ (a : Account) (rest : List Account), latestBefore entries a.id date = none →
       netWorthAsOf (a :: rest) entries date = netWorthAsOf rest entries date) ∧
    (∀ (a : Account) (rest : List Account) (e : BalanceEntry),
       a.is_active = true → latestBefore entries a.id date = some e →
       netWorthAsOf (a :: rest) entries date
         = signedBalance a e + netWorthAsOf rest entries date) ∧
    (∀ (a : Account) (e : BalanceEntry), a.category = .asset →
       signedBalance a e = e.balance) ∧
    (∀ (a : Account) (e : BalanceEntry), a.category = .liability →
       signedBalance a e = -e.balance) ∧
    (∀ aid : String, (latestBefore entries aid date).isSome = true ↔
       ∃ e ∈ entries, e.account_id = aid ∧ dateLe e.date date = true) := by
  refine ⟨?_, fun a rest hact => ?_, fun a rest hnone => ?_,
          fun a rest e hact hsome => ?_, fun a e hc => ?_, fun a e hc => ?_,
          fun aid => latestBefore_isSome_iff entries aid date⟩
  · unfold netWorthAsOf
    rw [netWorth_foldl]
    rw [zero_add]
  · unfold netWorthAsOf
    rw [List.filter_cons]
    simp [hact]
  · unfold netWorthAsOf
    rw [List.filter_cons]
    by_cases hact : a.is_active
    · simp [hact, hnone]
    · simp [hact]
  · unfold netWorthAsOf
    rw [List.filter_cons]
    simp [hact, hsome]
    rw [netWorth_foldl, netWorth_foldl, zero_add]
  · unfold signedBalance
    rw [hc]
  · unfold signedBalance
    rw [hc]

/-- C8: `currentBalance` is `latestBefore` at the query date, an account with
no ledger rows yields the distinguished shape with `balance_date = none`, a
recorded balance (zero included) yields `balance_date = some date`, and the
two shapes are never equal — no data is distinguishable from a recorded zero. -/
theorem current_balance_shape (entries : List BalanceEntry) (a : Account)
    (today : String) :
    currentBalance entries a.id today = latestBefore entries a.id today ∧
    ((∀ e ∈ entries, e.account_id ≠ a.id) →
       accountWithBalance entries today a
         = { account := a, current_balance := 0, balance_date := none }) ∧
    (∀ e : BalanceEntry, currentBalance entries a.id today = some e →
       accountWithBalance entries today a
         = { account := a, current_balance := e.balance, balance_date := some e.date }) ∧
    (∀ e : BalanceEntry, currentBalance entries a.id today = some e →
       e.balance = 0 →
       accountWithBalance entries today a
         ≠ { account := a, current_balance := 0, balance_date := none }) := by
  refine ⟨rfl, fun h => ?_, fun e he => ?_, fun e he hz => ?_⟩
  · unfold accountWithBalance
    rw [show currentBalance entries a.id today = none from
      latestBefore_none_of_no_entries entries a.id today h]
  · unfold accountWithBalance
    rw [he]
  · unfold accountWithBalance
    rw [he]
    intro hcontra
    have hdates := congrArg AccountWithBalance.balance_date hcontra
    simp at hdates

/-- Witness for C8: one recorded zero balance for account `a1` dated
2024-02-01 yields a shape distinct from the no-data shape. -/
theorem current_balance_shape_witness :
    currentBalance [entW0] acctW.id "2024-12-31" = some entW0 ∧
    accountWithBalance [entW0] "2024-12-31" acctW
      ≠ { account := acctW, current_balance := 0, balance_date := none } :=
  ⟨by decide,
   (current_balance_shape [entW0] acctW "2024-12-31").2.2.2 entW0 (by decide) rfl⟩

/-- C4 fails as stated: `('savings', 'liability')` is inconsistent with the
derivation (savings derives asset), yet the accounts-table CHECK constraints
of migration 1 accept it — each column is validated against its own domain
only, and no constraint couples the pair. -/
theorem inconsistent_pair_accepted :
    accountsRowAccepted "savings" "liability" = true ∧
    AccountType.category .savings ≠ .liability :=
  ⟨rfl, by decide⟩

/-- C4 (amended): the accounts-table CHECK constraints accept a row exactly
when `account_type` lies in the seven enumerated names and `category` lies in
`{asset, liability}`; pair consistency with the derivation is not enforced at
the storage layer. -/
theorem checks_enforce_domains_only (ty cat : String) :
    accountsRowAccepted ty cat = true ↔
      (ty ∈ (["property", "pension", "investment", "savings", "mortgage",
              "loan", "credit_card"] : List String) ∧
       cat ∈ (["asset", "liability"] : List String)) := by
  have h1 : checkOf accountsTable "account_type" =
      some ["property", "pension", "investment", "savings", "mortgage",
            "loan", "credit_card"] := rfl
  have h2 : checkOf accountsTable "category" = some ["asset", "liability"] := rfl
  unfold accountsRowAccepted inCheck
  rw [h1, h2]
  simp [List.contains]

end Tally
